import Mathlib

/-!
Verification development for the InsightFlow repository
(statistical profiler `TableProcessor.generateInsights` and document
synthesizer `generateInsightsPDF` in `src/webServer.ts`).

JavaScript strings are sequences of UTF-16 code units: `.length`,
`substring`, `split` and `replace` in the source all operate on code
units.  We therefore model a JS string as a `List Nat` of code units.
The synthesizer's final step is `new TextEncoder().encode(fullPDF)`,
which converts the UTF-16 string to UTF-8 bytes; we model that encoder
explicitly, because the cross-reference offsets are computed from
code-unit lengths while the artifact is a UTF-8 byte stream.
-/

namespace InsightFlow

/-- A JavaScript string: its sequence of UTF-16 code units. -/
abbrev JStr := List Nat

/-- Convert a Lean string literal to the code-unit sequence of the equal
JS string (characters above U+FFFF become surrogate pairs). -/
def utf16 (s : String) : JStr :=
  (s.data.map fun c =>
    if c.toNat < 0x10000 then [c.toNat]
    else [0xD800 + (c.toNat - 0x10000) / 0x400, 0xDC00 + (c.toNat - 0x10000) % 0x400]).flatten

/-- Decimal rendering of a natural number, as a JS string
(the `${n}` template interpolation of a nonnegative integer). -/
def numStr (n : Nat) : JStr := utf16 (Nat.repr n)

/-- `s.padStart(10, '0')` from the xref-building loop. -/
def padStart10 (s : JStr) : JStr := List.replicate (10 - s.length) 48 ++ s

/-- `u` is a UTF-16 high surrogate. -/
def isHigh (u : Nat) : Bool := decide (0xD800 ≤ u ∧ u < 0xDC00)

/-- `u` is a UTF-16 low surrogate. -/
def isLow (u : Nat) : Bool := decide (0xDC00 ≤ u ∧ u < 0xE000)

/-- UTF-8 bytes of a single Unicode code point. -/
def utf8Cp (cp : Nat) : List Nat :=
  if cp < 0x80 then [cp]
  else if cp < 0x800 then [0xC0 + cp / 0x40, 0x80 + cp % 0x40]
  else if cp < 0x10000 then
    [0xE0 + cp / 0x1000, 0x80 + cp / 0x40 % 0x40, 0x80 + cp % 0x40]
  else
    [0xF0 + cp / 0x40000, 0x80 + cp / 0x1000 % 0x40, 0x80 + cp / 0x40 % 0x40,
     0x80 + cp % 0x40]

/-- A lone surrogate is encoded by `TextEncoder` as U+FFFD. -/
def sanitize (u : Nat) : Nat := if isHigh u || isLow u then 0xFFFD else u

/-- `new TextEncoder().encode(s)`: UTF-8 bytes of a UTF-16 code-unit
sequence.  Well-formed surrogate pairs become a single 4-byte sequence;
lone surrogates become U+FFFD. -/
def utf8Encode : List Nat → List Nat
  | [] => []
  | [u] => utf8Cp (sanitize u)
  | u :: v :: rest =>
    if isHigh u && isLow v then
      utf8Cp (0x10000 + (u - 0xD800) * 0x400 + (v - 0xDC00)) ++ utf8Encode rest
    else
      utf8Cp (sanitize u) ++ utf8Encode (v :: rest)

/-! ## Word wrap and pagination (`generateInsightsPDF`, webServer.ts 190-252) -/

/-- `line.replace(/[()\\]/g, '\\$&')`: prepend a backslash (92) to every
parenthesis (40, 41) and backslash (92). -/
def escapePdf : JStr → JStr
  | [] => []
  | u :: rest =>
    if u = 40 ∨ u = 41 ∨ u = 92 then 92 :: u :: escapePdf rest
    else u :: escapePdf rest

/-- `s.split(sep)` for a one-character separator, JS semantics:
the result is never empty; `"".split(c)` is `[""]`. -/
def jsSplit (sep : Nat) : JStr → List JStr
  | [] => [[]]
  | u :: rest =>
    if u = sep then [] :: jsSplit sep rest
    else
      match jsSplit sep rest with
      | [] => [[u]]
      | h :: t => (u :: h) :: t

/-- Structural worker for `chunkList`: the fuel argument bounds the number
of loop iterations (it starts at the list length, which suffices), keeping
the definition reducible by the kernel. -/
def chunkListAux (k : Nat) : Nat → List α → List (List α)
  | _, [] => []
  | 0, l => [l]
  | fuel + 1, x :: xs => (x :: xs.take k) :: chunkListAux k fuel (xs.drop k)

/-- The loop `for (i = 0; i < xs.length; i += k+1) push(xs.substring(i, i+k+1))`:
split a list into consecutive chunks of `k+1` elements (last chunk may be
shorter). -/
def chunkList (k : Nat) (l : List α) : List (List α) := chunkListAux k l.length l

/-- `maxCharsPerLine` (webServer.ts line 198). -/
def maxCharsPerLine : Nat := 85

/-- Lines 206-216: escape a raw line; if the escaped line exceeds 85
characters, hard-split it into 85-character chunks, else keep it whole. -/
def wrapLine (line : JStr) : List JStr :=
  let escapedLine := escapePdf line
  if escapedLine.length > maxCharsPerLine then
    chunkList (maxCharsPerLine - 1) escapedLine
  else [escapedLine]

/-- Lines 202-216: `insights.split('\n')` then wrap each raw line. -/
def wrappedLines (insights : JStr) : List JStr :=
  ((jsSplit 10 insights).map wrapLine).flatten

/-- Page geometry constants (webServer.ts lines 191-200, 220):
`maxLinesPerPage = floor((792-50-50)/15) = 46`,
`linesPerPageWithHeader = 46 - 4 = 42`. -/
def maxLinesPerPage : Nat := (792 - 50 - 50) / 15

/-- Lines per page once 4 lines are reserved for title and timestamp. -/
def linesPerPageWithHeader : Nat := maxLinesPerPage - 4

/-- `0 -15 Td\n(line) Tj\n` — one wrapped line inside a content stream
(`-15` is `-lineHeight`). -/
def contentLine (l : JStr) : JStr := utf16 "0 -15 Td\n(" ++ l ++ utf16 ") Tj\n"

/-- First-page content stream (webServer.ts lines 226-251, `isFirstPage`
branch), parameterized by the already-escaped timestamp `e`
(the source escapes the timestamp exactly where it is embedded);
`50 742 Td` is `marginLeft yPos` with `yPos = pageHeight - marginTop`. -/
def pageFirstE (title e : JStr) (lines : List JStr) : JStr :=
  utf16 "BT\n" ++
  (utf16 "/F1 16 Tf\n50 742 Td\n(" ++ escapePdf title ++ utf16 ") Tj\n") ++
  (utf16 "0 -30 Td\n/F1 10 Tf\n(Generated: " ++ e ++ utf16 ") Tj\n") ++
  utf16 "0 -40 Td\n/F1 11 Tf\n" ++
  (lines.map contentLine).flatten ++
  utf16 "ET\n"

/-- Content stream of a later page (lines 226-251, non-first branch):
the first line has no leading vertical advance. -/
def pageLater (lines : List JStr) : JStr :=
  utf16 "BT\n" ++ utf16 "/F1 11 Tf\n50 742 Td\n" ++
  (match lines with
   | [] => []
   | l :: rest => (utf16 "(" ++ l ++ utf16 ") Tj\n") ++ (rest.map contentLine).flatten) ++
  utf16 "ET\n"

/-- The list of page content streams (lines 219-252): wrapped lines are
taken 42 at a time; the first chunk renders the title/timestamp header. -/
def pagesOfE (title e insights : JStr) : List JStr :=
  match chunkList (linesPerPageWithHeader - 1) (wrappedLines insights) with
  | [] => []
  | c :: rest => pageFirstE title e c :: rest.map pageLater

/-! ## PDF object assembly (webServer.ts lines 254-325) -/

/-- `%PDF-1.4\n%âãÏÓ\n` — 15 UTF-16 code units, 19 UTF-8 bytes. -/
def pdfHeaderStr : JStr := utf16 "%PDF-1.4\n%âãÏÓ\n"

/-- Object 1: catalog. -/
def obj1 : JStr := utf16 "1 0 obj\n<< /Type /Catalog /Pages 2 0 R >>\nendobj\n"

/-- `pages.map((_, idx) => `${3+idx} 0 R`).join(' ')`. -/
def pageRefs (n : Nat) : JStr :=
  List.intercalate (utf16 " ") ((List.range n).map fun idx => numStr (3 + idx) ++ utf16 " 0 R")

/-- Object 2: page-tree root. -/
def obj2 (n : Nat) : JStr :=
  utf16 "2 0 obj\n<< /Type /Pages /Kids [" ++ pageRefs n ++ utf16 "] /Count " ++
  numStr n ++ utf16 " >>\nendobj\n"

/-- Shared font resource object, number `3 + pages.length`. -/
def objFont (n : Nat) : JStr :=
  numStr (3 + n) ++
  utf16 " 0 obj\n<< /Font << /F1 << /Type /Font /Subtype /Type1 /BaseFont /Helvetica >> >> >>\nendobj\n"

/-- Page object `3 + i` referencing content object `fontObjNum + 1 + i`. -/
def pageObj (n i : Nat) : JStr :=
  numStr (3 + i) ++ utf16 " 0 obj\n<< /Type /Page /Parent 2 0 R /Resources " ++
  numStr (3 + n) ++ utf16 " 0 R /MediaBox [0 0 612 792] /Contents " ++
  numStr (3 + n + 1 + i) ++ utf16 " 0 R >>\nendobj\n"

/-- Content-stream object `fontObjNum + 1 + i`; `/Length` is the JS
`contentStream.length`, i.e. the code-unit count. -/
def contentObj (n i : Nat) (content : JStr) : JStr :=
  numStr (3 + n + 1 + i) ++ utf16 " 0 obj\n<< /Length " ++ numStr content.length ++
  utf16 " >>\nstream\n" ++ content ++ utf16 "endstream\nendobj\n"

/-- The content-stream objects for the pages, indexed from `i`. -/
def contentObjsFrom (n i : Nat) : List JStr → List JStr
  | [] => []
  | c :: rest => contentObj n i c :: contentObjsFrom n (i + 1) rest

/-- `allObjects = [obj1, obj2, ...pageObjects, objFont, ...contentObjects]`
(lines 286-301) with `n = pages.length` (so `fontObjNum = 3 + n`); this is
also the concatenation order of `pdfBody`. -/
def allObjectsN (title e insights : JStr) (n : Nat) : List JStr :=
  obj1 :: obj2 n ::
    ((List.range n).map (pageObj n) ++
     (objFont n :: contentObjsFrom n 0 (pagesOfE title e insights)))

/-- The object list of the document. -/
def allObjectsE (title e insights : JStr) : List JStr :=
  allObjectsN title e insights (pagesOfE title e insights).length

/-- `pdfBody` (lines 287-294): the objects concatenated in order. -/
def pdfBodyE (title e insights : JStr) : JStr := (allObjectsE title e insights).flatten

/-- Lines 297-305: offsets of the objects, accumulated from the JS
`.length` (code units) of the header and of each object in turn. -/
def offsetsFrom (cur : Nat) : List JStr → List Nat
  | [] => []
  | o :: rest => cur :: offsetsFrom (cur + o.length) rest

/-- The cross-reference table (lines 309-318); the total object count is
`1 + allObjects.length` for the reserved null object 0. -/
def xrefTableE (title e insights : JStr) : JStr :=
  utf16 "xref\n0 " ++ numStr (1 + (allObjectsE title e insights).length) ++ utf16 "\n" ++
  utf16 "0000000000 65535 f \n" ++
  ((offsetsFrom pdfHeaderStr.length (allObjectsE title e insights)).map fun off =>
    padStart10 (numStr off) ++ utf16 " 00000 n \n").flatten

/-- The trailer (lines 320-321): `/Size`, `/Root 1 0 R` and `startxref`
set to `pdfHeader.length + pdfBody.length` (code units). -/
def trailerE (title e insights : JStr) : JStr :=
  utf16 "trailer\n<< /Size " ++ numStr (1 + (allObjectsE title e insights).length) ++
  utf16 " /Root 1 0 R >>\nstartxref\n" ++
  numStr (pdfHeaderStr.length + (pdfBodyE title e insights).length) ++ utf16 "\n%%EOF\n"

/-- `fullPDF` as a UTF-16 string, parameterized by the escaped timestamp. -/
def fullPDFE (title e insights : JStr) : JStr :=
  pdfHeaderStr ++ pdfBodyE title e insights ++ xrefTableE title e insights ++
  trailerE title e insights

/-- The report title (line 188): `Data Science Analysis Report - ${filename}`. -/
def titleOf (filename : JStr) : JStr := utf16 "Data Science Analysis Report - " ++ filename

/-- `generateInsightsPDF(insights, filename)` with the generation
timestamp `ts` (read from the clock in the source) made a parameter:
the returned `Uint8Array` of the document. -/
def generateInsightsPDF (ts insights filename : JStr) : List Nat :=
  utf8Encode (fullPDFE (titleOf filename) (escapePdf ts) insights)

/-! ## The statistical profiler (`TableProcessor.generateInsights`,
src/unnamed/part_003 lines 255-554) -/

/-- The `TableData` interface (part_003 lines 4-8).  `rowCount` is a
stored field; the loaders set it to `rows.length`. -/
structure TableData where
  headers : List JStr
  rows : List (List JStr)
  rowCount : Nat

/-- The code units JavaScript `String.prototype.trim` (and the profiler's
truthiness tests on trimmed strings) treat as white space. -/
def jsIsSpaceU (u : Nat) : Bool :=
  u == 9 || u == 10 || u == 11 || u == 12 || u == 13 || u == 32 || u == 160 ||
  u == 0x1680 || decide (0x2000 ≤ u ∧ u ≤ 0x200A) || u == 0x2028 || u == 0x2029 ||
  u == 0x202F || u == 0x205F || u == 0x3000 || u == 0xFEFF

/-- `s.trim()`. -/
def jsTrim (s : JStr) : JStr :=
  ((s.dropWhile jsIsSpaceU).reverse.dropWhile jsIsSpaceU).reverse

/-- JS truthiness of a string: nonempty. -/
def truthy (s : JStr) : Bool := !s.isEmpty

/-- The cell test of the empty-cell counter (line 270):
`!cell || !cell.trim()`. -/
def cellEmptyCompleteness (cell : JStr) : Bool :=
  !truthy cell || !truthy (jsTrim cell)

/-- The keep-condition of the per-column value filter (line 296):
`val && val.trim()`. -/
def cellKept (val : JStr) : Bool := truthy val && truthy (jsTrim val)

/-- `totalCells = data.rowCount * data.headers.length` (line 268). -/
def totalCells (d : TableData) : Nat := d.rowCount * d.headers.length

/-- Lines 269-271: `rows.reduce((count, row) =>
count + row.filter(cell => !cell || !cell.trim()).length, 0)`. -/
def emptyCount (d : TableData) : Nat :=
  d.rows.foldl (fun count row => count + (row.filter cellEmptyCompleteness).length) 0

/-- Line 272: `completeness = ((totalCells - emptyCount) / totalCells) * 100`.
JavaScript float division by zero with a zero numerator yields NaN, which
we model as `none`; otherwise the exact rational value. -/
def completenessQ (d : TableData) : Option ℚ :=
  if totalCells d = 0 then none
  else some ((((totalCells d : ℚ) - (emptyCount d : ℚ)) / (totalCells d : ℚ)) * 100)

/-- Line 296: `values = data.rows.map(row => row[colIndex]).filter(val =>
val && val.trim())`.  A missing cell (`row[colIndex] === undefined`) is
falsy exactly like the empty string, so it is modelled as `[]`. -/
def colValues (d : TableData) (j : Nat) : List JStr :=
  (d.rows.map fun row => row.getD j []).filter cellKept

/-- Line 305 and 388: `new Set(values).size` — the number of distinct
non-empty values of the column. -/
def cardinalityOf (d : TableData) (j : Nat) : Nat := (colValues d j).dedup.length

/-- Line 308: `missingCount = data.rowCount - values.length`. -/
def missingCount (d : TableData) (j : Nat) : Nat :=
  d.rowCount - (colValues d j).length

/-- `row.join("|")` (line 412): cells interleaved with the unit 124. -/
def rowKey : List JStr → JStr
  | [] => []
  | [c] => c
  | c :: c2 :: rest => c ++ (124 :: rowKey (c2 :: rest))

/-- Lines 412-414: `duplicates = data.rowCount - new Set(rows.map(r =>
r.join("|"))).size`. -/
def duplicatesCount (d : TableData) : Nat :=
  d.rowCount - ((d.rows.map rowKey).dedup).length

/-- The quartile/outlier block of the numeric branch
(part_003 lines 329-340), on the already-parsed numeric values.
`Math.floor(n * 0.25)` and `Math.floor(n * 0.75)` are exact in binary
floating point for every attainable array length, hence `n / 4` and
`3 * n / 4` in natural division; `[...numericValues].sort((a, b) => a - b)`
sorts ascending. -/
structure NumericStats where
  n : Nat
  q1 : ℚ
  q3 : ℚ
  iqr : ℚ
  lowerBound : ℚ
  upperBound : ℚ
  outliers : List ℚ

/-- The computation of the quartile/outlier block (lines 316, 329-340). -/
def numericStats (numericValues : List ℚ) : NumericStats :=
  let n := numericValues.length
  let sorted := numericValues.insertionSort (· ≤ ·)
  let q1 := sorted.getD (n / 4) 0
  let q3 := sorted.getD (3 * n / 4) 0
  let iqr := q3 - q1
  let lowerBound := q1 - 3 / 2 * iqr
  let upperBound := q3 + 3 / 2 * iqr
  { n := n, q1 := q1, q3 := q3, iqr := iqr,
    lowerBound := lowerBound, upperBound := upperBound,
    outliers := numericValues.filter fun v => decide (v < lowerBound) || decide (upperBound < v) }

/-- The dataset-level outcome of one `generateInsights` run, as far as the
report's numbers are concerned: the quality metrics (lines 268-274,
412-416) and, per column, its non-empty values together with the flag of
the `values.length === 0` branch (line 298), which makes the report
describe the column as containing "no populated values". -/
structure DatasetSummary where
  totalCells : Nat
  emptyCount : Nat
  completeness : Option ℚ
  duplicates : Nat
  columnsEmptyFlag : List Bool

/-- The summary `generateInsights` computes for a dataset. -/
def datasetSummary (d : TableData) : DatasetSummary :=
  { totalCells := totalCells d
    emptyCount := emptyCount d
    completeness := completenessQ d
    duplicates := duplicatesCount d
    columnsEmptyFlag := (List.range d.headers.length).map fun j => (colValues d j).isEmpty }

/-- `generateInsights` as a fallible operation.  The body of the source
function (part_003 lines 255-553) contains no `throw` statement; every
array access is in bounds in the reachable states (in the numeric branch
`isNumeric` forces `n ≥ 1`, and all quartile/median indices are `< n`),
divisions by zero produce IEEE NaN or Infinity rather than an error, and
`toLocaleString`/`toFixed` are applied only to numbers.  The translation
is therefore total: the operation always returns a report. -/
def generateInsightsE (d : TableData) : Except JStr DatasetSummary :=
  Except.ok (datasetSummary d)

/-! ## Auxiliary notions used by the theorem statements -/

/-- A piece of text is well escaped for embedding between `(` and `)` in a
content stream: every backslash (92) is followed by a parenthesis or
backslash, and every parenthesis (40, 41) is preceded by a backslash. -/
def wellEscaped : JStr → Bool
  | [] => true
  | [u] => !(u == 40) && !(u == 41) && !(u == 92)
  | u :: v :: rest =>
    if u == 92 then (v == 40 || v == 41 || v == 92) && wellEscaped rest
    else !(u == 40) && !(u == 41) && wellEscaped (v :: rest)

/-- Some pair of consecutive wrapped lines splits a word: the earlier line
ends in a non-space and the next line starts with a non-space. -/
def splitsMidWord : List JStr → Bool
  | c1 :: c2 :: rest =>
    (match c1.getLast?, c2.head? with
     | some u, some v => !(u == 32) && !(v == 32)
     | _, _ => false) || splitsMidWord (c2 :: rest)
  | _ => false

/-- A body line of 84 letters `a` followed by `(`: its escaped form has 86
characters, so the hard wrap separates the escaping backslash from its
parenthesis. -/
def badLineC3 : JStr := List.replicate 84 97 ++ [40]

/-- A body line `aa` + space + 84 letters `b` (87 characters): wrappable at
its whitespace within the 85-column width, yet the hard wrap splits the
84-letter word. -/
def lineC4 : JStr := utf16 "aa " ++ List.replicate 84 98

/-- A concrete generation timestamp (`new Date().toLocaleString()` shape). -/
def tsC1 : JStr := utf16 "1/1/2026, 12:00:00 AM"

/-- The part of the first page's content stream before the embedded
escaped timestamp. -/
def pfA (title : JStr) : JStr :=
  utf16 "BT\n" ++ (utf16 "/F1 16 Tf\n50 742 Td\n(" ++ escapePdf title ++ utf16 ") Tj\n") ++
  utf16 "0 -30 Td\n/F1 10 Tf\n(Generated: "

/-- The part of the first page's content stream after the embedded
escaped timestamp. -/
def pfB (lines : List JStr) : JStr :=
  utf16 ") Tj\n" ++ utf16 "0 -40 Td\n/F1 11 Tf\n" ++ (lines.map contentLine).flatten ++
  utf16 "ET\n"

end InsightFlow
namespace InsightFlow

/-! ## Helper lemmas -/

theorem chunkListAux_congr (k : Nat) : ∀ (f1 f2 : Nat) (l : List α),
    l.length ≤ f1 → l.length ≤ f2 → chunkListAux k f1 l = chunkListAux k f2 l := by
  intro f1
  induction f1 with
  | zero =>
    intro f2 l h1 _
    rw [List.length_eq_zero.mp (Nat.le_zero.mp h1)]
    cases f2 <;> rfl
  | succ f1 ih =>
    intro f2 l h1 h2
    cases l with
    | nil => cases f2 <;> rfl
    | cons x xs =>
      cases f2 with
      | zero => simp at h2
      | succ f2 =>
        rw [chunkListAux, chunkListAux]
        have hd : (xs.drop k).length ≤ f1 := by
          simp only [List.length_drop]
          simp only [List.length_cons] at h1
          omega
        have hd2 : (xs.drop k).length ≤ f2 := by
          simp only [List.length_drop]
          simp only [List.length_cons] at h2
          omega
        rw [ih f2 (xs.drop k) hd hd2]

theorem chunkList_nil (k : Nat) : chunkList k ([] : List α) = [] := rfl

theorem chunkList_cons (k : Nat) (x : α) (xs : List α) :
    chunkList k (x :: xs) = (x :: xs.take k) :: chunkList k (xs.drop k) := by
  unfold chunkList
  rw [show (x :: xs).length = xs.length + 1 from rfl, chunkListAux]
  rw [chunkListAux_congr k xs.length (xs.drop k).length (xs.drop k)
    (by simp [List.length_drop]) (Nat.le_refl _)]

theorem chunkList_length (k : Nat) (xs : List α) :
    (chunkList k xs).length = (xs.length + k) / (k + 1) := by
  match xs with
  | [] =>
    simp only [chunkList_nil, List.length_nil, Nat.zero_add]
    exact (Nat.div_eq_of_lt (by omega)).symm
  | x :: l =>
    have ih := chunkList_length k (l.drop k)
    rw [chunkList_cons]
    simp only [List.length_cons, List.length_drop] at ih ⊢
    rw [ih]
    rcases le_or_lt k l.length with h | h
    · rw [Nat.sub_add_cancel h,
        show l.length + 1 + k = l.length + (k + 1) from by omega,
        Nat.add_div_right _ (Nat.succ_pos k)]
    · rw [Nat.sub_eq_zero_of_le (Nat.le_of_lt h),
        show l.length + 1 + k = l.length + (k + 1) from by omega,
        Nat.add_div_right _ (Nat.succ_pos k), Nat.zero_add,
        Nat.div_eq_of_lt (by omega), Nat.div_eq_of_lt (by omega)]
termination_by xs.length
decreasing_by simp [List.length_drop]; omega

theorem chunkList_flatten (k : Nat) (xs : List α) :
    (chunkList k xs).flatten = xs := by
  match xs with
  | [] => simp [chunkList_nil]
  | x :: l =>
    have ih := chunkList_flatten k (l.drop k)
    rw [chunkList_cons]
    simp [ih, List.take_append_drop]
termination_by xs.length
decreasing_by simp [List.length_drop]; omega

theorem chunkList_mem_length (k : Nat) (xs : List α) :
    ∀ c ∈ chunkList k xs, c.length ≤ k + 1 := by
  match xs with
  | [] => simp [chunkList_nil]
  | x :: l =>
    have ih := chunkList_mem_length k (l.drop k)
    intro c hc
    rw [chunkList_cons] at hc
    rcases List.mem_cons.mp hc with h | h
    · subst h
      simp only [List.length_cons]
      have := List.length_take_le k l
      omega
    · exact ih c h
termination_by xs.length
decreasing_by simp [List.length_drop]; omega

theorem chunkList_dropLast_length (k : Nat) (xs : List α) :
    ∀ c ∈ (chunkList k xs).dropLast, c.length = k + 1 := by
  match xs with
  | [] => simp [chunkList_nil]
  | x :: l =>
    have ih := chunkList_dropLast_length k (l.drop k)
    intro c hc
    rw [chunkList_cons] at hc
    cases hr : chunkList k (l.drop k) with
    | nil => rw [hr] at hc; simp at hc
    | cons y ys =>
      rw [hr] at hc
      rcases List.mem_cons.mp (by simpa [List.dropLast] using hc) with h | h
      · subst h
        have hne : l.drop k ≠ [] := by
          intro h0
          rw [h0] at hr
          simp [chunkList_nil] at hr
        have hk : k < l.length := by
          by_contra hk
          push_neg at hk
          exact hne (List.drop_eq_nil_of_le hk)
        simp only [List.length_cons, List.length_take]
        omega
      · exact ih c (by rw [hr]; exact h)
termination_by xs.length
decreasing_by simp [List.length_drop]; omega

theorem jsSplit_ne_nil (sep : Nat) (s : JStr) : jsSplit sep s ≠ [] := by
  induction s with
  | nil => simp [jsSplit]
  | cons u rest ih =>
    unfold jsSplit
    by_cases h : u = sep
    · simp [h]
    · simp only [h, if_false]
      cases hr : jsSplit sep rest with
      | nil => exact absurd hr ih
      | cons a t => simp

theorem wrapLine_eq (line : JStr) :
    wrapLine line =
      if (escapePdf line).length > maxCharsPerLine then
        chunkList (maxCharsPerLine - 1) (escapePdf line)
      else [escapePdf line] := rfl

theorem wrapLine_ne_nil (line : JStr) : wrapLine line ≠ [] := by
  rw [wrapLine_eq]
  split
  · rename_i h
    cases he : escapePdf line with
    | nil => rw [he] at h; simp [maxCharsPerLine] at h
    | cons a t => simp [chunkList_cons]
  · simp

theorem wrappedLines_ne_nil (insights : JStr) : wrappedLines insights ≠ [] := by
  unfold wrappedLines
  cases hs : jsSplit 10 insights with
  | nil => exact absurd hs (jsSplit_ne_nil 10 insights)
  | cons a t =>
    cases hw : wrapLine a with
    | nil => exact absurd hw (wrapLine_ne_nil a)
    | cons b u => simp [hw]

theorem pagesOfE_length (title e insights : JStr) :
    (pagesOfE title e insights).length =
      (chunkList (linesPerPageWithHeader - 1) (wrappedLines insights)).length := by
  unfold pagesOfE
  cases h : chunkList (linesPerPageWithHeader - 1) (wrappedLines insights) with
  | nil => simp
  | cons c rest => simp

end InsightFlow

namespace InsightFlow

theorem wellEscaped_escapePdf (s : JStr) : wellEscaped (escapePdf s) = true := by
  induction s with
  | nil => rfl
  | cons u rest ih =>
    rw [escapePdf]
    by_cases h : u = 40 ∨ u = 41 ∨ u = 92
    · rw [if_pos h, wellEscaped]
      have hc : (u == 40 || u == 41 || u == 92) = true := by
        rcases h with h | h | h <;> simp [h]
      simp [hc, ih]
    · rw [if_neg h]
      push_neg at h
      obtain ⟨h40, h41, h92⟩ := h
      cases hr : escapePdf rest with
      | nil => simp [wellEscaped, h40, h41, h92]
      | cons a t =>
        rw [wellEscaped]
        rw [hr] at ih
        simp [h40, h41, h92, ih]

/-- C2: for every title, timestamp and body, the number of page objects is
`ceil(wrappedLineCount / linesPerPageWithHeader)` and is at least 1; an
empty body still yields exactly one page, a body wrapping to
`linesPerPageWithHeader - 1` lines yields one page, and one wrapping to
`linesPerPageWithHeader + 1` lines yields two pages. -/
theorem C2_page_count (title ts insights : JStr) :
    (pagesOfE title ts insights).length =
      ((wrappedLines insights).length + (linesPerPageWithHeader - 1)) / linesPerPageWithHeader
    ∧ 1 ≤ (pagesOfE title ts insights).length
    ∧ (insights = [] → (pagesOfE title ts insights).length = 1)
    ∧ ((wrappedLines insights).length = linesPerPageWithHeader - 1 →
        (pagesOfE title ts insights).length = 1)
    ∧ ((wrappedLines insights).length = linesPerPageWithHeader + 1 →
        (pagesOfE title ts insights).length = 2) := by
  have h42 : linesPerPageWithHeader = 42 := rfl
  have hform : (pagesOfE title ts insights).length =
      ((wrappedLines insights).length + 41) / 42 := by
    rw [pagesOfE_length, chunkList_length, h42]
  have hpos : 1 ≤ (wrappedLines insights).length :=
    List.length_pos.mpr (wrappedLines_ne_nil insights)
  refine ⟨by rw [hform, h42], ?_, ?_, ?_, ?_⟩
  · rw [hform, Nat.one_le_div_iff (by omega)]
    omega
  · intro h
    subst h
    rw [hform, show (wrappedLines []).length = 1 from by decide]
  · intro h
    rw [hform, h, h42]
  · intro h
    rw [hform, h, h42]

theorem C2_page_count_witness :
    (pagesOfE (utf16 "T") (utf16 "ts") []).length = 1 :=
  (C2_page_count (utf16 "T") (utf16 "ts") []).2.2.1 rfl

/-- C3 (code bug): every parenthesis and backslash IS escaped before the
wrap (last conjunct), but the 85-column hard split can separate the
escaping backslash from its character: for the body line of 84 `a`s
followed by `(`, the wrap emits a line ending in a bare backslash and a
line consisting of a bare `(`, so the claimed guarantee that no input can
place an unescaped structural character inside a content-stream string
literal fails. -/
theorem C3_escape_split_corruption :
    wrapLine badLineC3 = [List.replicate 84 97 ++ [92], [40]]
    ∧ wellEscaped (List.replicate 84 97 ++ [92]) = false
    ∧ wellEscaped [40] = false
    ∧ ∀ s : JStr, wellEscaped (escapePdf s) = true :=
  ⟨by decide, by decide, by decide, wellEscaped_escapePdf⟩

/-- C4 counterexample: the line `aa ` + 84 `b`s can be wrapped at its
whitespace into pieces of at most 85 characters, yet the synthesizer's
wrap splits the 84-letter word across two lines. -/
theorem C4_mid_word_split :
    List.intercalate (utf16 " ") [utf16 "aa", List.replicate 84 98] = lineC4
    ∧ (utf16 "aa").length ≤ 85 ∧ (List.replicate 84 98 : JStr).length ≤ 85
    ∧ splitsMidWord (wrapLine lineC4) = true := by
  refine ⟨by decide, by decide, by decide, by decide⟩

/-- C4 (amended): the wrap step hard-splits each escaped logical line at
fixed 85-character boundaries irrespective of word boundaries: the chunks
concatenate back to the escaped line, every chunk has at most 85
characters, every chunk except the last has exactly 85, and a line whose
escaped form fits in 85 characters is kept whole. -/
theorem C4_fixed_width_wrap (line : JStr) :
    (wrapLine line).flatten = escapePdf line
    ∧ (∀ c ∈ wrapLine line, c.length ≤ maxCharsPerLine)
    ∧ (∀ c ∈ (wrapLine line).dropLast, c.length = maxCharsPerLine)
    ∧ ((escapePdf line).length ≤ maxCharsPerLine → wrapLine line = [escapePdf line]) := by
  rw [wrapLine_eq]
  by_cases h : (escapePdf line).length > maxCharsPerLine
  · rw [if_pos h]
    refine ⟨chunkList_flatten 84 _, ?_, ?_, ?_⟩
    · exact fun c hc => chunkList_mem_length 84 _ c hc
    · exact fun c hc => chunkList_dropLast_length 84 _ c hc
    · intro hle
      exact absurd h (by omega)
  · rw [if_neg h]
    refine ⟨by simp, ?_, by simp, fun _ => rfl⟩
    intro c hc
    rw [List.mem_singleton.mp hc]
    omega

theorem C4_fixed_width_wrap_witness :
    (wrapLine lineC4).flatten = escapePdf lineC4
    ∧ wrapLine (utf16 "hi") = [utf16 "hi"] :=
  ⟨(C4_fixed_width_wrap lineC4).1, by
    have h := (C4_fixed_width_wrap (utf16 "hi")).2.2.2 (by decide)
    rw [h]; decide⟩

end InsightFlow

namespace InsightFlow

set_option maxRecDepth 10000 in
/-- C1 (code bug): the xref offsets and `startxref` are JS string lengths,
i.e. UTF-16 code-unit counts, but the artifact is the UTF-8 encoding of
the string and its header contains four non-ASCII characters of two bytes
each: for the empty body and filename `f`, the table's entry for object 1
states offset 15, yet in the byte stream `1 0 obj` begins at byte 19 and
byte 15 is in the middle of the header; likewise `startxref` states the
code-unit position of the xref table, which is 4 less than its byte
position. -/
theorem C1_xref_offsets_are_code_units :
    (offsetsFrom pdfHeaderStr.length (allObjectsE (titleOf (utf16 "f")) (escapePdf tsC1) [])).head? = some 15
    ∧ ((generateInsightsPDF tsC1 [] (utf16 "f")).drop 15).take 7 ≠ utf16 "1 0 obj"
    ∧ ((generateInsightsPDF tsC1 [] (utf16 "f")).drop 19).take 7 = utf16 "1 0 obj"
    ∧ ((generateInsightsPDF tsC1 [] (utf16 "f")).drop
        (pdfHeaderStr.length + (pdfBodyE (titleOf (utf16 "f")) (escapePdf tsC1) []).length)).take 4 ≠ utf16 "xref"
    ∧ ((generateInsightsPDF tsC1 [] (utf16 "f")).drop
        (pdfHeaderStr.length + (pdfBodyE (titleOf (utf16 "f")) (escapePdf tsC1) []).length + 4)).take 4 = utf16 "xref" := by
  refine ⟨by decide, by decide, by decide, by decide, by decide⟩

end InsightFlow

namespace InsightFlow

/-! ## Profiler lemmas -/

theorem length_filter_add_length_filter_not (l : List α) (p : α → Bool) :
    (l.filter p).length + (l.filter fun a => !p a).length = l.length := by
  induction l with
  | nil => rfl
  | cons a t ih =>
    by_cases h : p a <;> simp [List.filter_cons, h, ← ih] <;> omega

theorem foldl_add_eq_sum (l : List α) (g : α → Nat) (init : Nat) :
    l.foldl (fun c a => c + g a) init = init + (l.map g).sum := by
  induction l generalizing init with
  | nil => simp
  | cons a t ih => simp [ih, Nat.add_assoc]

theorem emptyCount_eq_sum (d : TableData) :
    emptyCount d = (d.rows.map fun r => (r.filter cellEmptyCompleteness).length).sum := by
  unfold emptyCount
  rw [foldl_add_eq_sum, Nat.zero_add]

theorem jsTrim_nil : jsTrim [] = [] := rfl

theorem cellEmptyCompleteness_eq (cell : JStr) :
    cellEmptyCompleteness cell = (jsTrim cell).isEmpty := by
  unfold cellEmptyCompleteness truthy
  cases cell with
  | nil => rfl
  | cons u rest => simp

theorem cellKept_eq (val : JStr) : cellKept val = !(jsTrim val).isEmpty := by
  unfold cellKept truthy
  cases val with
  | nil => rfl
  | cons u rest => simp

/-- C10: a cell counts as empty exactly when its content trims to the empty
string, consistently across the completeness metric, the per-column
non-empty value list (the basis of kind inference and statistics),
cardinality, and the missing-value count. -/
theorem C10_empty_cell_consistency (cell : JStr) (d : TableData) (j : Nat)
    (hrc : d.rowCount = d.rows.length) :
    cellEmptyCompleteness cell = (jsTrim cell).isEmpty
    ∧ cellKept cell = !(jsTrim cell).isEmpty
    ∧ emptyCount d = (d.rows.map fun r => (r.filter fun c => (jsTrim c).isEmpty).length).sum
    ∧ colValues d j = ((d.rows.map fun r => r.getD j []).filter fun c => !(jsTrim c).isEmpty)
    ∧ cardinalityOf d j =
        (((d.rows.map fun r => r.getD j []).filter fun c => !(jsTrim c).isEmpty)).dedup.length
    ∧ missingCount d j =
        ((d.rows.map fun r => r.getD j []).filter fun c => (jsTrim c).isEmpty).length := by
  have hval : colValues d j =
      (d.rows.map fun r => r.getD j []).filter fun c => !(jsTrim c).isEmpty := by
    unfold colValues
    exact List.filter_congr fun c _ => cellKept_eq c
  refine ⟨cellEmptyCompleteness_eq cell, cellKept_eq cell, ?_, hval, ?_, ?_⟩
  · rw [emptyCount_eq_sum]
    congr 1
    apply List.map_congr_left
    intro r _
    congr 1
    exact List.filter_congr fun c _ => cellEmptyCompleteness_eq c
  · unfold cardinalityOf
    rw [hval]
  · unfold missingCount
    rw [hval, hrc]
    have hsplit := length_filter_add_length_filter_not
      (d.rows.map fun r => r.getD j []) (fun c => !(jsTrim c).isEmpty)
    have hlen : (d.rows.map fun r => r.getD j []).length = d.rows.length :=
      List.length_map _ _
    simp only [Bool.not_not] at hsplit
    omega

theorem C10_empty_cell_consistency_witness :
    cellEmptyCompleteness (utf16 " ") = true
    ∧ missingCount ⟨[utf16 "h"], [[utf16 " "], [utf16 "x"]], 2⟩ 0 =
        (((⟨[utf16 "h"], [[utf16 " "], [utf16 "x"]], 2⟩ : TableData).rows.map
          fun r => r.getD 0 []).filter fun c => (jsTrim c).isEmpty).length :=
  ⟨((C10_empty_cell_consistency (utf16 " ") ⟨[utf16 "h"], [[utf16 " "], [utf16 "x"]], 2⟩ 0
      rfl).1).trans (by decide),
   (C10_empty_cell_consistency (utf16 " ") ⟨[utf16 "h"], [[utf16 " "], [utf16 "x"]], 2⟩ 0
      rfl).2.2.2.2.2⟩

end InsightFlow

namespace InsightFlow

/-- C5 counterexample: a zero-column dataset does not make the profiler
fail: the operation succeeds and returns a report (whose completeness is
the NaN of the 0/0 division, modelled as `none`). -/
theorem C5_zero_columns_no_failure :
    (generateInsightsE ⟨[], [], 0⟩).isOk = true
    ∧ completenessQ ⟨[], [], 0⟩ = none := ⟨rfl, rfl⟩

/-- C5 (amended): the profiling operation never fails — every dataset
yields a report — and a dataset with zero rows yields a report describing
each of its columns as empty (`values.length === 0` branch). -/
theorem C5_profiler_total (d : TableData) :
    (generateInsightsE d).isOk = true
    ∧ (d.rows = [] → ∀ flag ∈ (datasetSummary d).columnsEmptyFlag, flag = true) := by
  refine ⟨rfl, ?_⟩
  intro hrows flag hf
  simp only [datasetSummary, List.mem_map] at hf
  obtain ⟨j, -, hj⟩ := hf
  rw [← hj]
  simp [colValues, hrows]

theorem C5_profiler_total_witness :
    (generateInsightsE ⟨[utf16 "a"], [], 0⟩).isOk = true
    ∧ ∀ flag ∈ (datasetSummary ⟨[utf16 "a"], [], 0⟩).columnsEmptyFlag, flag = true :=
  ⟨(C5_profiler_total ⟨[utf16 "a"], [], 0⟩).1,
   (C5_profiler_total ⟨[utf16 "a"], [], 0⟩).2 rfl⟩

/-- C6: on the parseable values of a numeric column, the profiler takes
Q1 and Q3 at the truncated indices `floor(n/4)` and `floor(3n/4)` of the
ascending sort (characterized as any sorted permutation), IQR = Q3 − Q1,
and it flags as outliers exactly the values outside
[Q1 − 1.5·IQR, Q3 + 1.5·IQR]. -/
theorem C6_quartiles_outliers (vs s : List ℚ) (hp : s.Perm vs)
    (hs : List.Sorted (· ≤ ·) s) (_hn : 0 < vs.length) :
    (numericStats vs).q1 = s.getD (vs.length / 4) 0
    ∧ (numericStats vs).q3 = s.getD (3 * vs.length / 4) 0
    ∧ (numericStats vs).iqr = (numericStats vs).q3 - (numericStats vs).q1
    ∧ (numericStats vs).lowerBound = (numericStats vs).q1 - 3 / 2 * (numericStats vs).iqr
    ∧ (numericStats vs).upperBound = (numericStats vs).q3 + 3 / 2 * (numericStats vs).iqr
    ∧ ∀ v : ℚ, v ∈ (numericStats vs).outliers ↔
        v ∈ vs ∧ (v < (numericStats vs).lowerBound ∨ (numericStats vs).upperBound < v) := by
  have hsort : s = vs.insertionSort (· ≤ ·) :=
    List.eq_of_perm_of_sorted (hp.trans (List.perm_insertionSort _ vs).symm) hs
      (List.sorted_insertionSort _ vs)
  subst hsort
  refine ⟨rfl, rfl, rfl, rfl, rfl, ?_⟩
  intro v
  simp [numericStats, List.mem_filter]

theorem C6_quartiles_outliers_witness :
    (numericStats [1, 2, 3, 4, 100]).q1 = 2
    ∧ (numericStats [1, 2, 3, 4, 100]).q3 = 4
    ∧ (numericStats [1, 2, 3, 4, 100]).iqr = 2
    ∧ (numericStats [1, 2, 3, 4, 100]).upperBound = 7
    ∧ (100 : ℚ) ∈ (numericStats [1, 2, 3, 4, 100]).outliers := by
  have h := C6_quartiles_outliers [1, 2, 3, 4, 100] [1, 2, 3, 4, 100] (by decide)
    (by decide) (by decide)
  have hq1 : (numericStats [1, 2, 3, 4, 100]).q1 = 2 := by rw [h.1]; decide
  have hq3 : (numericStats [1, 2, 3, 4, 100]).q3 = 4 := by rw [h.2.1]; decide
  have hiqr : (numericStats [1, 2, 3, 4, 100]).iqr = 2 := by
    rw [h.2.2.1, hq1, hq3]; norm_num
  have hup : (numericStats [1, 2, 3, 4, 100]).upperBound = 7 := by
    rw [h.2.2.2.2.1, hq3, hiqr]; norm_num
  refine ⟨hq1, hq3, hiqr, hup, ?_⟩
  exact (h.2.2.2.2.2 100).mpr ⟨by decide, Or.inr (by rw [hup]; norm_num)⟩

/-- C7 counterexample: the duplicate detector joins the cells of a row
with `|` before comparing, so two rows that differ in every cell can
collide: `["a|b","c"]` and `["a","b|c"]` have the same key and are counted
as one duplicate. -/
theorem C7_pipe_collision :
    rowKey [utf16 "a|b", utf16 "c"] = rowKey [utf16 "a", utf16 "b|c"]
    ∧ [utf16 "a|b", utf16 "c"] ≠ [utf16 "a", utf16 "b|c"]
    ∧ duplicatesCount ⟨[utf16 "h1", utf16 "h2"],
        [[utf16 "a|b", utf16 "c"], [utf16 "a", utf16 "b|c"]], 2⟩ = 1 := by
  refine ⟨by decide, by decide, by decide⟩

theorem rowKey_cons_cons (c c2 : JStr) (rest : List JStr) :
    rowKey (c :: c2 :: rest) = c ++ (124 :: rowKey (c2 :: rest)) := rfl

theorem rowKey_append_cons (pre : List JStr) (a : JStr) (post : List JStr) :
    rowKey (pre ++ a :: post) =
      (pre.map fun c => c ++ [124]).flatten ++ rowKey (a :: post) := by
  induction pre with
  | nil => simp
  | cons p ps ih =>
    have hcons : ps ++ a :: post = (ps ++ a :: post) := rfl
    cases hz : ps ++ a :: post with
    | nil => exact absurd hz (by simp)
    | cons z zs =>
      rw [List.cons_append, hz, rowKey_cons_cons, ← hz, ih]
      simp [List.append_assoc]

theorem pipe_free_split (c1 : JStr) (J1 : JStr) :
    ∀ (c2 J2 : JStr), (124 : Nat) ∉ c1 → (124 : Nat) ∉ c2 →
      c1 ++ 124 :: J1 = c2 ++ 124 :: J2 → c1 = c2 ∧ J1 = J2 := by
  induction c1 with
  | nil =>
    intro c2 J2 _ h2 heq
    cases c2 with
    | nil => simpa using heq
    | cons d ds =>
      exfalso
      have : d = 124 := by simpa using congrArg List.head? heq.symm
      exact h2 (this ▸ List.mem_cons_self d ds)
  | cons u us ih =>
    intro c2 J2 h1 h2 heq
    cases c2 with
    | nil =>
      exfalso
      have : u = 124 := by simpa using congrArg List.head? heq
      exact h1 (this ▸ List.mem_cons_self u us)
    | cons d ds =>
      have hu : u = d := by simpa using congrArg List.head? heq
      subst hu
      have htail : us ++ 124 :: J1 = ds ++ 124 :: J2 := by simpa using heq
      have h1t : (124 : Nat) ∉ us := fun h => h1 (List.mem_cons_of_mem u h)
      have h2t : (124 : Nat) ∉ ds := fun h => h2 (List.mem_cons_of_mem u h)
      obtain ⟨he, ht⟩ := ih ds J2 h1t h2t htail
      exact ⟨by rw [he], ht⟩

theorem rowKey_pipe_free_inj (r1 : List JStr) :
    ∀ r2 : List JStr, (∀ c ∈ r1, (124 : Nat) ∉ c) → (∀ c ∈ r2, (124 : Nat) ∉ c) →
      r1.length = r2.length → rowKey r1 = rowKey r2 → r1 = r2 := by
  induction r1 with
  | nil =>
    intro r2 _ _ hlen _
    exact (List.length_eq_zero.mp hlen.symm).symm
  | cons c1 t1 ih =>
    intro r2 hp1 hp2 hlen hkey
    cases r2 with
    | nil => simp at hlen
    | cons c2 t2 =>
      cases t1 with
      | nil =>
        have ht2 : t2 = [] := by
          simp only [List.length_cons, List.length_nil] at hlen
          exact List.length_eq_zero.mp (by omega)
        subst ht2
        simpa using hkey
      | cons x xs =>
        cases t2 with
        | nil => simp at hlen
        | cons y ys =>
          rw [rowKey_cons_cons, rowKey_cons_cons] at hkey
          obtain ⟨hc, ht⟩ := pipe_free_split c1 (rowKey (x :: xs)) c2 (rowKey (y :: ys))
            (hp1 c1 (List.mem_cons_self _ _)) (hp2 c2 (List.mem_cons_self _ _)) hkey
          have := ih (y :: ys) (fun c hc => hp1 c (List.mem_cons_of_mem _ hc))
            (fun c hc => hp2 c (List.mem_cons_of_mem _ hc))
            (by simpa using hlen) ht
          rw [hc, this]

/-- C7 (amended): two rows are counted as duplicates exactly when their
`|`-joined keys coincide; on rows whose cells contain no `|` this is
positional equality of all cells; the duplicate count is invariant under
row reordering; and two rows that differ in exactly one cell are never
counted as duplicates, `|` or not. -/
theorem C7_duplicate_semantics :
    (∀ d1 d2 : TableData, d1.rows.Perm d2.rows → d1.rowCount = d2.rowCount →
        duplicatesCount d1 = duplicatesCount d2)
    ∧ (∀ r1 r2 : List JStr, (∀ c ∈ r1, (124 : Nat) ∉ c) → (∀ c ∈ r2, (124 : Nat) ∉ c) →
        r1.length = r2.length → (rowKey r1 = rowKey r2 ↔ r1 = r2))
    ∧ (∀ pre post : List JStr, ∀ a b : JStr, a ≠ b →
        rowKey (pre ++ a :: post) ≠ rowKey (pre ++ b :: post)) := by
  refine ⟨?_, ?_, ?_⟩
  · intro d1 d2 hperm hrc
    unfold duplicatesCount
    rw [hrc, ((hperm.map rowKey).dedup).length_eq]
  · intro r1 r2 h1 h2 hlen
    exact ⟨fun h => rowKey_pipe_free_inj r1 r2 h1 h2 hlen h, fun h => by rw [h]⟩
  · intro pre post a b hab hkey
    rw [rowKey_append_cons, rowKey_append_cons] at hkey
    have hkey2 : rowKey (a :: post) = rowKey (b :: post) :=
      List.append_cancel_left hkey
    cases post with
    | nil => exact hab hkey2
    | cons q qs =>
      rw [rowKey_cons_cons, rowKey_cons_cons] at hkey2
      have hlen : a.length = b.length := by
        have := congrArg List.length hkey2
        simp only [List.length_append, List.length_cons] at this
        omega
      exact hab (List.append_inj hkey2 hlen).1

theorem C7_duplicate_semantics_witness :
    duplicatesCount ⟨[utf16 "h"], [[utf16 "x"], [utf16 "y"]], 2⟩ =
      duplicatesCount ⟨[utf16 "h"], [[utf16 "y"], [utf16 "x"]], 2⟩
    ∧ (rowKey [utf16 "a", utf16 "b"] = rowKey [utf16 "a", utf16 "c"] ↔
        [utf16 "a", utf16 "b"] = [utf16 "a", utf16 "c"])
    ∧ rowKey [utf16 "a", utf16 "b"] ≠ rowKey [utf16 "a", utf16 "c"] :=
  ⟨C7_duplicate_semantics.1 ⟨[utf16 "h"], [[utf16 "x"], [utf16 "y"]], 2⟩
      ⟨[utf16 "h"], [[utf16 "y"], [utf16 "x"]], 2⟩ (by decide) rfl,
   C7_duplicate_semantics.2.1 [utf16 "a", utf16 "b"] [utf16 "a", utf16 "c"]
      (by decide) (by decide) rfl,
   C7_duplicate_semantics.2.2 [utf16 "a"] [] (utf16 "b") (utf16 "c") (by decide)⟩

end InsightFlow

namespace InsightFlow

/-- C8 counterexample: a zero-row dataset (permitted by the profiler) has
zero total cells, so the completeness computation is the float division
0/0 = NaN: it is not a number in [0, 100] even though the dataset has zero
empty cells. -/
theorem C8_nan_on_zero_rows :
    completenessQ ⟨[utf16 "a"], [], 0⟩ = none
    ∧ emptyCount ⟨[utf16 "a"], [], 0⟩ = 0
    ∧ ¬∃ q : ℚ, completenessQ ⟨[utf16 "a"], [], 0⟩ = some q ∧ 0 ≤ q ∧ q ≤ 100 := by
  refine ⟨rfl, rfl, ?_⟩
  rintro ⟨q, hq, -, -⟩
  simp [completenessQ, totalCells] at hq

/-- C8 (amended): for every dataset with at least one cell (and rows
shaped to the header row), completeness lies in [0, 100] and equals 100
exactly when the dataset has no empty cells; with zero total cells the
computation is NaN instead. -/
theorem C8_completeness_bounds (d : TableData)
    (hrc : d.rowCount = d.rows.length)
    (hshape : ∀ r ∈ d.rows, r.length = d.headers.length)
    (hpos : 0 < totalCells d) :
    ∃ q : ℚ, completenessQ d = some q ∧ 0 ≤ q ∧ q ≤ 100 ∧ (q = 100 ↔ emptyCount d = 0) := by
  have hEleT : emptyCount d ≤ totalCells d := by
    rw [emptyCount_eq_sum]
    calc (d.rows.map fun r => (r.filter cellEmptyCompleteness).length).sum
        ≤ (d.rows.map fun r => r.length).sum := by
          apply List.sum_le_sum
          intro r _
          exact List.length_filter_le _ r
      _ = (d.rows.map fun _ => d.headers.length).sum := by
          congr 1
          exact List.map_congr_left fun r hr => hshape r hr
      _ = d.rows.length * d.headers.length := by
          rw [List.map_const', List.sum_replicate, smul_eq_mul]
      _ = totalCells d := by rw [totalCells, hrc]
  have hT : (0 : ℚ) < (totalCells d : ℚ) := by exact_mod_cast hpos
  have hTne : (totalCells d : ℚ) ≠ 0 := ne_of_gt hT
  have hE : ((emptyCount d : ℚ)) ≤ (totalCells d : ℚ) := by exact_mod_cast hEleT
  refine ⟨(((totalCells d : ℚ) - (emptyCount d : ℚ)) / (totalCells d : ℚ)) * 100, ?_, ?_, ?_, ?_⟩
  · rw [completenessQ, if_neg (Nat.pos_iff_ne_zero.mp hpos)]
  · apply mul_nonneg _ (by norm_num)
    apply div_nonneg _ (le_of_lt hT)
    linarith
  · have hdiv : ((totalCells d : ℚ) - (emptyCount d : ℚ)) / (totalCells d : ℚ) ≤ 1 := by
      rw [div_le_one hT]
      have : (0 : ℚ) ≤ (emptyCount d : ℚ) := by positivity
      linarith
    linarith
  · constructor
    · intro h100
      have : ((totalCells d : ℚ) - (emptyCount d : ℚ)) / (totalCells d : ℚ) = 1 := by
        have h100' : (((totalCells d : ℚ) - (emptyCount d : ℚ)) / (totalCells d : ℚ)) * 100 =
            1 * 100 := by rw [h100]; norm_num
        exact mul_right_cancel₀ (by norm_num) h100'
      rw [div_eq_one_iff_eq hTne] at this
      have : (emptyCount d : ℚ) = 0 := by linarith
      exact_mod_cast this
    · intro h0
      rw [h0]
      push_cast
      rw [sub_zero, div_self hTne, one_mul]

theorem C8_completeness_bounds_witness :
    ∃ q : ℚ, completenessQ ⟨[utf16 "a"], [[utf16 "x"]], 1⟩ = some q ∧ 0 ≤ q ∧ q ≤ 100
      ∧ (q = 100 ↔ emptyCount ⟨[utf16 "a"], [[utf16 "x"]], 1⟩ = 0) :=
  C8_completeness_bounds ⟨[utf16 "a"], [[utf16 "x"]], 1⟩ rfl (by decide) (by decide)

end InsightFlow

namespace InsightFlow

/-! ## C9: the timestamp is the only difference between two runs -/

theorem utf8Encode_nil : utf8Encode [] = [] := rfl

theorem utf8Encode_one (u : Nat) : utf8Encode [u] = utf8Cp (sanitize u) := rfl

theorem utf8Encode_cons_cons (u v : Nat) (rest : List Nat) :
    utf8Encode (u :: v :: rest) =
      if isHigh u && isLow v then
        utf8Cp (0x10000 + (u - 0xD800) * 0x400 + (v - 0xDC00)) ++ utf8Encode rest
      else utf8Cp (sanitize u) ++ utf8Encode (v :: rest) := rfl

theorem utf8Encode_append_right (Y X : List Nat)
    (hY : ∀ v ∈ Y.head?, isLow v = false) :
    utf8Encode (X ++ Y) = utf8Encode X ++ utf8Encode Y := by
  match X with
  | [] => simp [utf8Encode_nil]
  | [u] =>
    cases Y with
    | nil => simp [utf8Encode_nil]
    | cons v rest =>
      have hv : isLow v = false := hY v rfl
      rw [List.singleton_append, utf8Encode_cons_cons, if_neg (by simp [hv]),
        utf8Encode_one]
  | u :: v :: rest =>
    have ih1 := utf8Encode_append_right Y rest hY
    have ih2 := utf8Encode_append_right Y (v :: rest) hY
    rw [List.cons_append, List.cons_append, utf8Encode_cons_cons, utf8Encode_cons_cons]
    by_cases hb : (isHigh u && isLow v) = true
    · rw [if_pos hb, if_pos hb, ih1, List.append_assoc]
    · rw [if_neg hb, if_neg hb, ← List.cons_append, ih2, List.append_assoc]
termination_by X.length
decreasing_by all_goals (simp; try omega)

theorem utf8Encode_append_left (X Y : List Nat)
    (hX : ∀ u ∈ X.getLast?, isHigh u = false) :
    utf8Encode (X ++ Y) = utf8Encode X ++ utf8Encode Y := by
  match X with
  | [] => simp [utf8Encode_nil]
  | [u] =>
    have hu : isHigh u = false := hX u rfl
    cases Y with
    | nil => simp [utf8Encode_nil]
    | cons v rest =>
      rw [List.singleton_append, utf8Encode_cons_cons, if_neg (by simp [hu]),
        utf8Encode_one]
  | u :: v :: rest =>
    have hX2 : ∀ w ∈ (v :: rest).getLast?, isHigh w = false := by
      intro w hw
      apply hX
      rw [List.getLast?_cons_cons]
      exact hw
    rw [List.cons_append, List.cons_append, utf8Encode_cons_cons, utf8Encode_cons_cons]
    by_cases hb : (isHigh u && isLow v) = true
    · have hX3 : ∀ w ∈ rest.getLast?, isHigh w = false := by
        intro w hw
        apply hX2
        cases rest with
        | nil => simp at hw
        | cons z zs => rw [List.getLast?_cons_cons]; exact hw
      have ih := utf8Encode_append_left rest Y hX3
      rw [if_pos hb, if_pos hb, ih, List.append_assoc]
    · have ih := utf8Encode_append_left (v :: rest) Y hX2
      rw [if_neg hb, if_neg hb, ← List.cons_append, ih, List.append_assoc]
termination_by X.length
decreasing_by all_goals (simp; try omega)

theorem pageFirstE_decomp (title e : JStr) (lines : List JStr) :
    pageFirstE title e lines = pfA title ++ e ++ pfB lines := by
  unfold pageFirstE pfA pfB
  simp [List.append_assoc]

theorem pageFirstE_length (title e : JStr) (lines : List JStr) :
    (pageFirstE title e lines).length =
      (pfA title).length + e.length + (pfB lines).length := by
  rw [pageFirstE_decomp]
  simp [List.length_append]
  omega

theorem pagesOfE_map_length (title insights e1 e2 : JStr) (h : e1.length = e2.length) :
    (pagesOfE title e1 insights).map List.length =
      (pagesOfE title e2 insights).map List.length := by
  unfold pagesOfE
  cases hc : chunkList (linesPerPageWithHeader - 1) (wrappedLines insights) with
  | nil => rfl
  | cons c rest =>
    simp only [List.map_cons]
    rw [pageFirstE_length, pageFirstE_length, h]

theorem contentObj_length_congr (n j : Nat) (p1 p2 : JStr) (h : p1.length = p2.length) :
    (contentObj n j p1).length = (contentObj n j p2).length := by
  unfold contentObj
  simp [List.length_append, h]

theorem contentObjsFrom_map_length (n : Nat) :
    ∀ (ps1 : List JStr) (j : Nat) (ps2 : List JStr),
      ps1.map List.length = ps2.map List.length →
      (contentObjsFrom n j ps1).map List.length =
        (contentObjsFrom n j ps2).map List.length := by
  intro ps1
  induction ps1 with
  | nil =>
    intro j ps2 h
    cases ps2 with
    | nil => rfl
    | cons p t => simp at h
  | cons p1 t1 ih =>
    intro j ps2 h
    cases ps2 with
    | nil => simp at h
    | cons p2 t2 =>
      simp only [List.map_cons, List.cons.injEq] at h
      obtain ⟨hp, ht⟩ := h
      simp only [contentObjsFrom, List.map_cons]
      rw [contentObj_length_congr n j p1 p2 hp, ih (j + 1) t2 ht]

theorem pagesOfE_length_congr (title insights e1 e2 : JStr) :
    (pagesOfE title e1 insights).length = (pagesOfE title e2 insights).length := by
  rw [pagesOfE_length, pagesOfE_length]

theorem allObjectsE_map_length (title insights e1 e2 : JStr) (h : e1.length = e2.length) :
    (allObjectsE title e1 insights).map List.length =
      (allObjectsE title e2 insights).map List.length := by
  unfold allObjectsE allObjectsN
  rw [pagesOfE_length_congr title insights e1 e2]
  simp only [List.map_cons, List.map_append]
  rw [contentObjsFrom_map_length _ _ 0 _ (pagesOfE_map_length title insights e1 e2 h)]

theorem allObjectsE_length_congr (title insights e1 e2 : JStr) (h : e1.length = e2.length) :
    (allObjectsE title e1 insights).length = (allObjectsE title e2 insights).length := by
  have := congrArg List.length (allObjectsE_map_length title insights e1 e2 h)
  simpa using this

theorem offsetsFrom_congr :
    ∀ (l1 : List JStr) (cur : Nat) (l2 : List JStr),
      l1.map List.length = l2.map List.length →
      offsetsFrom cur l1 = offsetsFrom cur l2 := by
  intro l1
  induction l1 with
  | nil =>
    intro cur l2 h
    cases l2 with
    | nil => rfl
    | cons o t => simp at h
  | cons o1 t1 ih =>
    intro cur l2 h
    cases l2 with
    | nil => simp at h
    | cons o2 t2 =>
      simp only [List.map_cons, List.cons.injEq] at h
      obtain ⟨ho, ht⟩ := h
      simp only [offsetsFrom]
      rw [ho, ih (cur + o2.length) t2 ht]

theorem xrefTableE_congr (title insights e1 e2 : JStr) (h : e1.length = e2.length) :
    xrefTableE title e1 insights = xrefTableE title e2 insights := by
  unfold xrefTableE
  rw [offsetsFrom_congr _ _ _ (allObjectsE_map_length title insights e1 e2 h),
      allObjectsE_length_congr title insights e1 e2 h]

theorem pdfBodyE_length_congr (title insights e1 e2 : JStr) (h : e1.length = e2.length) :
    (pdfBodyE title e1 insights).length = (pdfBodyE title e2 insights).length := by
  unfold pdfBodyE
  rw [List.length_flatten, List.length_flatten,
      allObjectsE_map_length title insights e1 e2 h]

theorem trailerE_congr (title insights e1 e2 : JStr) (h : e1.length = e2.length) :
    trailerE title e1 insights = trailerE title e2 insights := by
  unfold trailerE
  rw [allObjectsE_length_congr title insights e1 e2 h,
      pdfBodyE_length_congr title insights e1 e2 h]

theorem chunkList_wrapped_ne_nil (insights : JStr) :
    chunkList (linesPerPageWithHeader - 1) (wrappedLines insights) ≠ [] := by
  cases hw : wrappedLines insights with
  | nil => exact absurd hw (wrappedLines_ne_nil insights)
  | cons x xs => rw [chunkList_cons]; simp

theorem fullPDFE_split (title insights e : JStr) (c0 : List JStr) (rest : List (List JStr))
    (hc : chunkList (linesPerPageWithHeader - 1) (wrappedLines insights) = c0 :: rest) :
    fullPDFE title e insights =
      (pdfHeaderStr ++ obj1 ++ obj2 (rest.length + 1) ++
       ((List.range (rest.length + 1)).map (pageObj (rest.length + 1))).flatten ++
       objFont (rest.length + 1) ++
       numStr (3 + (rest.length + 1) + 1 + 0) ++ utf16 " 0 obj\n<< /Length " ++
       numStr ((pfA title).length + e.length + (pfB c0).length) ++ utf16 " >>\nstream\n" ++
       pfA title) ++
      e ++
      (pfB c0 ++ utf16 "endstream\nendobj\n" ++
       (contentObjsFrom (rest.length + 1) 1 (rest.map pageLater)).flatten ++
       xrefTableE title e insights ++ trailerE title e insights) := by
  have hp : pagesOfE title e insights = pageFirstE title e c0 :: rest.map pageLater := by
    unfold pagesOfE
    rw [hc]
  unfold fullPDFE pdfBodyE allObjectsE allObjectsN
  rw [hp]
  simp only [List.length_cons, List.length_map, contentObjsFrom, contentObj,
    pageFirstE_length, List.flatten_cons, List.flatten_append]
  rw [pageFirstE_decomp]
  simp [List.append_assoc]

end InsightFlow

namespace InsightFlow

theorem fullPDFE_ts_decomp (insights filename ts1 ts2 : JStr)
    (hlen : (escapePdf ts1).length = (escapePdf ts2).length) :
    ∃ A0 B0 : JStr,
      (∀ u ∈ A0.getLast?, isHigh u = false)
      ∧ B0.head? = some 41
      ∧ fullPDFE (titleOf filename) (escapePdf ts1) insights = A0 ++ escapePdf ts1 ++ B0
      ∧ fullPDFE (titleOf filename) (escapePdf ts2) insights = A0 ++ escapePdf ts2 ++ B0 := by
  obtain ⟨c0, rest, hc⟩ : ∃ c0 rest,
      chunkList (linesPerPageWithHeader - 1) (wrappedLines insights) = c0 :: rest := by
    cases h : chunkList (linesPerPageWithHeader - 1) (wrappedLines insights) with
    | nil => exact absurd h (chunkList_wrapped_ne_nil insights)
    | cons c r => exact ⟨c, r, rfl⟩
  have hs1 := fullPDFE_split (titleOf filename) insights (escapePdf ts1) c0 rest hc
  have hs2 := fullPDFE_split (titleOf filename) insights (escapePdf ts2) c0 rest hc
  rw [xrefTableE_congr (titleOf filename) insights (escapePdf ts2) (escapePdf ts1) hlen.symm,
      trailerE_congr (titleOf filename) insights (escapePdf ts2) (escapePdf ts1) hlen.symm,
      ← hlen] at hs2
  refine ⟨_, _, ?_, ?_, hs1, hs2⟩
  · intro u hu
    have hpfa_ne : pfA (titleOf filename) ≠ [] := by
      unfold pfA
      simp [List.append_eq_nil,
        show utf16 "0 -30 Td\n/F1 10 Tf\n(Generated: " ≠ [] from by decide]
    have hpfa_last : (pfA (titleOf filename)).getLast? = some 32 := by
      unfold pfA
      rw [List.getLast?_append_of_ne_nil _ (by decide)]
      decide
    rw [List.getLast?_append_of_ne_nil _ hpfa_ne, hpfa_last] at hu
    have hu32 : 32 = u := by simpa using hu
    rw [← hu32]
    decide
  · rfl

/-- C9: with the generation timestamp as a parameter, the synthesizer is a
pure function of its inputs, and two runs whose (escaped) timestamps have
the same length produce byte streams that are identical except for the
embedded timestamp bytes: a common prefix, the encoded timestamp, and a
common suffix. -/
theorem C9_timestamp_only_difference (ts1 ts2 insights filename : JStr)
    (hlen : (escapePdf ts1).length = (escapePdf ts2).length) :
    ∃ A B : List Nat,
      generateInsightsPDF ts1 insights filename = A ++ utf8Encode (escapePdf ts1) ++ B
      ∧ generateInsightsPDF ts2 insights filename = A ++ utf8Encode (escapePdf ts2) ++ B := by
  obtain ⟨A0, B0, hA, hB, h1, h2⟩ := fullPDFE_ts_decomp insights filename ts1 ts2 hlen
  have hBlow : ∀ v ∈ B0.head?, isLow v = false := by
    intro v hv
    rw [hB] at hv
    have hv41 : 41 = v := by simpa using hv
    rw [← hv41]
    decide
  refine ⟨utf8Encode A0, utf8Encode B0, ?_, ?_⟩
  · show utf8Encode (fullPDFE (titleOf filename) (escapePdf ts1) insights) = _
    rw [h1, List.append_assoc, utf8Encode_append_left A0 _ hA,
        utf8Encode_append_right B0 (escapePdf ts1) hBlow, ← List.append_assoc]
  · show utf8Encode (fullPDFE (titleOf filename) (escapePdf ts2) insights) = _
    rw [h2, List.append_assoc, utf8Encode_append_left A0 _ hA,
        utf8Encode_append_right B0 (escapePdf ts2) hBlow, ← List.append_assoc]

theorem C9_timestamp_only_difference_witness :
    ∃ A B : List Nat,
      generateInsightsPDF (utf16 "1/1/2026, 12:00:00 AM") [] (utf16 "f") =
        A ++ utf8Encode (escapePdf (utf16 "1/1/2026, 12:00:00 AM")) ++ B
      ∧ generateInsightsPDF (utf16 "2/3/2026, 10:45:30 PM") [] (utf16 "f") =
        A ++ utf8Encode (escapePdf (utf16 "2/3/2026, 10:45:30 PM")) ++ B :=
  C9_timestamp_only_difference (utf16 "1/1/2026, 12:00:00 AM")
    (utf16 "2/3/2026, 10:45:30 PM") [] (utf16 "f") (by decide)

end InsightFlow
